import Mathlib

/-!
# UART file-transfer protocol: a verification development

The repository's visible surface is the header `include/uart_file_transfer.h`,
which declares the single entry point `fs_proxy_create_task`.  The protocol
engine itself (Frame Codec, Message Model, Transfer State Machine, Filesystem
Adapter seam, UART worker) is specified in the design document; this file
embeds that design — the wire format, the message encodings, the framing
codec, the dispatch state machine and a reference filesystem adapter — as
executable Lean definitions and proves the specified properties about them.

Bytes are modelled as natural numbers; every encoder emits values `< 256`
and every multi-byte integer is little-endian with an explicit fixed width,
as the specification requires.
-/

namespace UartFT

/-- A byte on the wire, modelled as a natural number (`< 256` in every
well-formed stream). -/
abbrev Byte := Nat

/-- A byte string. -/
abbrev Bytes := List Nat

/-! ## Little-endian fixed-width integer encodings (spec §4.2, §6)

Modelled from the spec: "Numeric fields use a fixed byte order (little-endian)
and fixed widths (e.g. 32-bit offsets/lengths, 16-bit handles)." -/

/-- Encode a natural number as two little-endian bytes (u16). -/
def u16le (n : Nat) : Bytes := [n % 256, n / 256 % 256]

/-- Encode a natural number as four little-endian bytes (u32). -/
def u32le (n : Nat) : Bytes :=
  [n % 256, n / 256 % 256, n / 65536 % 256, n / 16777216 % 256]

/-! ## Message model (spec §3, §4.2)

Modelled from the spec: the repository's message-model source is not present
(only the header is); these types follow §3's "Message: a discriminated
request or response" with the request variants Open, Read, Write, Seek,
Close, Stat, List, Delete and the response variants Ok, Err, and §6's error
code and opcode tables. -/

/-- File open mode, carried by `Open`. -/
inductive Mode
  | read
  | write
  | readWrite
  | append
deriving DecidableEq, Repr

/-- Seek origin, carried by `Seek` (an enum field: decoding an out-of-range
byte is the `InvalidEnum` decode error). -/
inductive Whence
  | set
  | cur
  | fromEnd
deriving DecidableEq, Repr

/-- Kind of a directory entry in stat-info. -/
inductive FileKind
  | file
  | dir
deriving DecidableEq, Repr

/-- Protocol error codes (spec §6: "NotFound, PermissionDenied, IoError,
OutOfSpace, InvalidHandle, Truncated, Timeout, Malformed, Unsupported"). -/
inductive ErrorCode
  | NotFound
  | PermissionDenied
  | IoError
  | OutOfSpace
  | InvalidHandle
  | Truncated
  | Timeout
  | Malformed
  | Unsupported
deriving DecidableEq, Repr

/-- The optional payload of an `Ok` response (spec §3: "optional payload:
handle | bytes | stat-info | directory-entries"); `num` carries the numeric
results (bytes-written, new-offset) of §4.4's write/seek operations. -/
inductive OkPayload
  | nothing
  | handle (h : Nat)
  | data (bs : Bytes)
  | stat (size : Nat) (kind : FileKind) (mtime : Nat)
  | entries (es : List Bytes)
  | num (n : Nat)
deriving DecidableEq, Repr

/-- The discriminated message type (spec §3). -/
inductive Message
  | Open (path : Bytes) (mode : Mode)
  | Read (handle offs len : Nat)
  | Write (handle offs : Nat) (payload : Bytes)
  | Seek (handle offs : Nat) (whence : Whence)
  | Close (handle : Nat)
  | Stat (path : Bytes)
  | List (path : Bytes)
  | Delete (path : Bytes)
  | Ok (payload : OkPayload)
  | Err (code : ErrorCode)
deriving DecidableEq, Repr

/-- Decode failures (spec §4.2: "fails with DecodeError{UnknownOpcode,
TruncatedField, InvalidEnum}"). -/
inductive DecodeError
  | UnknownOpcode
  | TruncatedField
  | InvalidEnum
deriving DecidableEq, Repr

/-! ### Enum byte encodings -/

/-- Wire byte of a `Mode`. -/
def Mode.toByte : Mode → Nat
  | .read => 0
  | .write => 1
  | .readWrite => 2
  | .append => 3

/-- Wire byte of a `Whence`. -/
def Whence.toByte : Whence → Nat
  | .set => 0
  | .cur => 1
  | .fromEnd => 2

/-- Wire byte of a `FileKind`. -/
def FileKind.toByte : FileKind → Nat
  | .file => 0
  | .dir => 1

/-- Wire byte of an `ErrorCode`. -/
def ErrorCode.toByte : ErrorCode → Nat
  | .NotFound => 0
  | .PermissionDenied => 1
  | .IoError => 2
  | .OutOfSpace => 3
  | .InvalidHandle => 4
  | .Truncated => 5
  | .Timeout => 6
  | .Malformed => 7
  | .Unsupported => 8

/-- Decode a `Mode` byte; out-of-range is the `InvalidEnum` error. -/
def decMode (b : Nat) : Except DecodeError Mode :=
  if b = 0 then .ok .read
  else if b = 1 then .ok .write
  else if b = 2 then .ok .readWrite
  else if b = 3 then .ok .append
  else .error .InvalidEnum

/-- Decode a `Whence` byte; out-of-range is the `InvalidEnum` error. -/
def decWhence (b : Nat) : Except DecodeError Whence :=
  if b = 0 then .ok .set
  else if b = 1 then .ok .cur
  else if b = 2 then .ok .fromEnd
  else .error .InvalidEnum

/-- Decode a `FileKind` byte; out-of-range is the `InvalidEnum` error. -/
def decKind (b : Nat) : Except DecodeError FileKind :=
  if b = 0 then .ok .file
  else if b = 1 then .ok .dir
  else .error .InvalidEnum

/-- Decode an `ErrorCode` byte; out-of-range is the `InvalidEnum` error. -/
def decErrCode (b : Nat) : Except DecodeError ErrorCode :=
  if b = 0 then .ok .NotFound
  else if b = 1 then .ok .PermissionDenied
  else if b = 2 then .ok .IoError
  else if b = 3 then .ok .OutOfSpace
  else if b = 4 then .ok .InvalidHandle
  else if b = 5 then .ok .Truncated
  else if b = 6 then .ok .Timeout
  else if b = 7 then .ok .Malformed
  else if b = 8 then .ok .Unsupported
  else .error .InvalidEnum

/-! ### Field readers

Each reader parses one field off the front of a byte string and returns the
value together with the unconsumed tail (spec §4.2: "opcode, then fixed-width
fields, then variable-length fields prefixed by an explicit length"). -/

/-- Read one byte; an empty input is a truncated field. -/
def decU8 : Bytes → Except DecodeError (Nat × Bytes)
  | [] => .error .TruncatedField
  | b :: r => .ok (b, r)

/-- Read a little-endian u16. -/
def decU16 : Bytes → Except DecodeError (Nat × Bytes)
  | a :: b :: r => .ok (a + 256 * b, r)
  | _ => .error .TruncatedField

/-- Read a little-endian u32. -/
def decU32 : Bytes → Except DecodeError (Nat × Bytes)
  | a :: b :: c :: d :: r => .ok (a + 256 * b + 65536 * c + 16777216 * d, r)
  | _ => .error .TruncatedField

/-- Read exactly `n` raw bytes. -/
def decVec (n : Nat) (bs : Bytes) : Except DecodeError (Bytes × Bytes) :=
  if n ≤ bs.length then .ok (bs.take n, bs.drop n) else .error .TruncatedField

/-- Encode one directory entry: u16 length prefix, then the name bytes. -/
def encEntry (e : Bytes) : Bytes := u16le e.length ++ e

/-- Read `n` length-prefixed directory entries. -/
def decEntries : Nat → Bytes → Except DecodeError (List Bytes × Bytes)
  | 0, bs => .ok ([], bs)
  | n + 1, bs =>
    match decU16 bs with
    | .error e => .error e
    | .ok (len, r1) =>
      match decVec len r1 with
      | .error e => .error e
      | .ok (e, r2) =>
        match decEntries n r2 with
        | .error e => .error e
        | .ok (es, r3) => .ok (e :: es, r3)

/-! ### Message encoding (spec §4.2, §6)

Opcode table (spec §6): 0x01 Open, 0x02 Read, 0x03 Write, 0x04 Seek,
0x05 Close, 0x06 Stat, 0x07 List, 0x08 Delete, 0x80 Ok, 0xFF Err. -/

/-- Wire encoding of an `Ok` payload: a tag byte, then the payload fields. -/
def OkPayload.encode : OkPayload → Bytes
  | .nothing => [0]
  | .handle h => 1 :: u16le h
  | .data bs => 2 :: u16le bs.length ++ bs
  | .stat size kind mtime => 3 :: u32le size ++ [kind.toByte] ++ u32le mtime
  | .entries es => 4 :: u16le es.length ++ (es.map encEntry).flatten
  | .num n => 5 :: u32le n

/-- `encode(Message) -> bytes`, total (spec §4.2): the opcode byte, then
fixed-width fields, then length-prefixed variable-length fields. -/
def Message.encode : Message → Bytes
  | .Open path mode => 0x01 :: mode.toByte :: u16le path.length ++ path
  | .Read h offs len => 0x02 :: u16le h ++ u32le offs ++ u32le len
  | .Write h offs payload => 0x03 :: u16le h ++ u32le offs ++ u16le payload.length ++ payload
  | .Seek h offs w => 0x04 :: u16le h ++ u32le offs ++ [w.toByte]
  | .Close h => 0x05 :: u16le h
  | .Stat path => 0x06 :: u16le path.length ++ path
  | .List path => 0x07 :: u16le path.length ++ path
  | .Delete path => 0x08 :: u16le path.length ++ path
  | .Ok p => 0x80 :: p.encode
  | .Err c => 0xFF :: [c.toByte]

/-- Decode the fields of an `Ok` response after its opcode. -/
def decOkPayload (bs : Bytes) : Except DecodeError OkPayload :=
  match decU8 bs with
  | .error e => .error e
  | .ok (tag, r0) =>
    if tag = 0 then .ok .nothing
    else if tag = 1 then
      match decU16 r0 with
      | .error e => .error e
      | .ok (h, _) => .ok (.handle h)
    else if tag = 2 then
      match decU16 r0 with
      | .error e => .error e
      | .ok (len, r1) =>
        match decVec len r1 with
        | .error e => .error e
        | .ok (bsv, _) => .ok (.data bsv)
    else if tag = 3 then
      match decU32 r0 with
      | .error e => .error e
      | .ok (size, r1) =>
        match decU8 r1 with
        | .error e => .error e
        | .ok (kb, r2) =>
          match decKind kb with
          | .error e => .error e
          | .ok kind =>
            match decU32 r2 with
            | .error e => .error e
            | .ok (mtime, _) => .ok (.stat size kind mtime)
    else if tag = 4 then
      match decU16 r0 with
      | .error e => .error e
      | .ok (n, r1) =>
        match decEntries n r1 with
        | .error e => .error e
        | .ok (es, _) => .ok (.entries es)
    else if tag = 5 then
      match decU32 r0 with
      | .error e => .error e
      | .ok (n, _) => .ok (.num n)
    else .error .InvalidEnum

/-- `decode(Frame payload) -> Message` or a `DecodeError` (spec §4.2):
dispatch on the opcode byte, then parse the variant's fields. -/
def Message.decode (bs : Bytes) : Except DecodeError Message :=
  match decU8 bs with
  | .error e => .error e
  | .ok (op, r0) =>
    if op = 0x01 then
      match decU8 r0 with
      | .error e => .error e
      | .ok (mb, r1) =>
        match decMode mb with
        | .error e => .error e
        | .ok mode =>
          match decU16 r1 with
          | .error e => .error e
          | .ok (n, r2) =>
            match decVec n r2 with
            | .error e => .error e
            | .ok (path, _) => .ok (.Open path mode)
    else if op = 0x02 then
      match decU16 r0 with
      | .error e => .error e
      | .ok (h, r1) =>
        match decU32 r1 with
        | .error e => .error e
        | .ok (offs, r2) =>
          match decU32 r2 with
          | .error e => .error e
          | .ok (len, _) => .ok (.Read h offs len)
    else if op = 0x03 then
      match decU16 r0 with
      | .error e => .error e
      | .ok (h, r1) =>
        match decU32 r1 with
        | .error e => .error e
        | .ok (offs, r2) =>
          match decU16 r2 with
          | .error e => .error e
          | .ok (n, r3) =>
            match decVec n r3 with
            | .error e => .error e
            | .ok (payload, _) => .ok (.Write h offs payload)
    else if op = 0x04 then
      match decU16 r0 with
      | .error e => .error e
      | .ok (h, r1) =>
        match decU32 r1 with
        | .error e => .error e
        | .ok (offs, r2) =>
          match decU8 r2 with
          | .error e => .error e
          | .ok (wb, _) =>
            match decWhence wb with
            | .error e => .error e
            | .ok w => .ok (.Seek h offs w)
    else if op = 0x05 then
      match decU16 r0 with
      | .error e => .error e
      | .ok (h, _) => .ok (.Close h)
    else if op = 0x06 then
      match decU16 r0 with
      | .error e => .error e
      | .ok (n, r1) =>
        match decVec n r1 with
        | .error e => .error e
        | .ok (path, _) => .ok (.Stat path)
    else if op = 0x07 then
      match decU16 r0 with
      | .error e => .error e
      | .ok (n, r1) =>
        match decVec n r1 with
        | .error e => .error e
        | .ok (path, _) => .ok (.List path)
    else if op = 0x08 then
      match decU16 r0 with
      | .error e => .error e
      | .ok (n, r1) =>
        match decVec n r1 with
        | .error e => .error e
        | .ok (path, _) => .ok (.Delete path)
    else if op = 0x80 then
      match decOkPayload r0 with
      | .error e => .error e
      | .ok p => .ok (.Ok p)
    else if op = 0xFF then
      match decU8 r0 with
      | .error e => .error e
      | .ok (cb, _) =>
        match decErrCode cb with
        | .error e => .error e
        | .ok c => .ok (.Err c)
    else .error .UnknownOpcode

/-- Validity of an `Ok` payload: every numeric field fits its fixed wire
width and every variable-length field fits its u16 length prefix. -/
def OkPayload.validB : OkPayload → Bool
  | .nothing => true
  | .handle h => h < 65536
  | .data bs => bs.length < 65536
  | .stat size _ mtime => size < 4294967296 && mtime < 4294967296
  | .entries es => es.length < 65536 && es.all (fun e => e.length < 65536)
  | .num n => n < 4294967296

/-- Validity of a `Message`: every numeric field fits its fixed wire width
(16-bit handles, 32-bit offsets/lengths) and every variable-length field
fits its u16 length prefix. -/
def Message.validB : Message → Bool
  | .Open path _ => path.length < 65536
  | .Read h offs len => h < 65536 && offs < 4294967296 && len < 4294967296
  | .Write h offs payload => h < 65536 && offs < 4294967296 && payload.length < 65536
  | .Seek h offs _ => h < 65536 && offs < 4294967296
  | .Close h => h < 65536
  | .Stat path => path.length < 65536
  | .List path => path.length < 65536
  | .Delete path => path.length < 65536
  | .Ok p => p.validB
  | .Err _ => true

/-! ### Reader/encoder round-trip lemmas -/

/-- Reading one byte off a cons. -/
@[simp] theorem decU8_cons (b : Nat) (r : Bytes) : decU8 (b :: r) = .ok (b, r) := rfl

/-- A u16 field reads back, leaving the tail. -/
@[simp] theorem decU16_u16le (n : Nat) (r : Bytes) (h : n < 65536) :
    decU16 (u16le n ++ r) = .ok (n, r) := by
  simp only [u16le, List.cons_append, List.nil_append, decU16, Except.ok.injEq,
    Prod.mk.injEq, and_true]
  omega

/-- A u32 field reads back, leaving the tail. -/
@[simp] theorem decU32_u32le (n : Nat) (r : Bytes) (h : n < 4294967296) :
    decU32 (u32le n ++ r) = .ok (n, r) := by
  simp only [u32le, List.cons_append, List.nil_append, decU32, Except.ok.injEq,
    Prod.mk.injEq, and_true]
  omega

/-- A raw byte vector reads back, leaving the tail. -/
@[simp] theorem decVec_append (v r : Bytes) : decVec v.length (v ++ r) = .ok (v, r) := by
  simp [decVec, List.take_left, List.drop_left]

/-- A raw byte vector at the very end of the input reads back. -/
@[simp] theorem decVec_all (v : Bytes) : decVec v.length v = .ok (v, []) := by
  simpa using decVec_append v []

/-- A u16 field at the very end of the input reads back. -/
theorem decU16_u16le0 (n : Nat) (h : n < 65536) : decU16 (u16le n) = .ok (n, []) := by
  simpa using decU16_u16le n [] h

/-- A u32 field at the very end of the input reads back. -/
theorem decU32_u32le0 (n : Nat) (h : n < 4294967296) : decU32 (u32le n) = .ok (n, []) := by
  simpa using decU32_u32le n [] h

/-- Mode enum bytes decode back. -/
@[simp] theorem decMode_toByte (m : Mode) : decMode m.toByte = .ok m := by
  cases m <;> rfl

/-- Whence enum bytes decode back. -/
@[simp] theorem decWhence_toByte (w : Whence) : decWhence w.toByte = .ok w := by
  cases w <;> rfl

/-- FileKind enum bytes decode back. -/
@[simp] theorem decKind_toByte (k : FileKind) : decKind k.toByte = .ok k := by
  cases k <;> rfl

/-- ErrorCode enum bytes decode back. -/
@[simp] theorem decErrCode_toByte (c : ErrorCode) : decErrCode c.toByte = .ok c := by
  cases c <;> rfl

/-- A sequence of length-prefixed directory entries reads back. -/
theorem decEntries_flatten (es : List Bytes) (r : Bytes)
    (h : ∀ e ∈ es, e.length < 65536) :
    decEntries es.length ((es.map encEntry).flatten ++ r) = .ok (es, r) := by
  induction es generalizing r with
  | nil => rfl
  | cons e es ih =>
    have he : e.length < 65536 := h e (by simp)
    have hes : ∀ x ∈ es, x.length < 65536 := fun x hx => h x (by simp [hx])
    simp [List.map_cons, List.flatten_cons, encEntry, List.append_assoc,
      decEntries, decU16_u16le _ _ he, ih r hes]

/-- Encode/decode round-trip, payload-tag level. -/
theorem decOkPayload_encode (p : OkPayload) (h : p.validB = true) :
    decOkPayload p.encode = .ok p := by
  cases p with
  | nothing => rfl
  | handle hh =>
    simp only [OkPayload.validB, decide_eq_true_eq] at h
    simp [OkPayload.encode, decOkPayload, decU16_u16le0 _ h]
  | data bs =>
    simp only [OkPayload.validB, decide_eq_true_eq] at h
    simp [OkPayload.encode, decOkPayload, decU16_u16le _ _ h]
  | stat size kind mtime =>
    simp only [OkPayload.validB, Bool.and_eq_true, decide_eq_true_eq] at h
    simp [OkPayload.encode, decOkPayload, decU32_u32le _ _ h.1, decU32_u32le0 _ h.2]
  | entries es =>
    simp only [OkPayload.validB, Bool.and_eq_true, decide_eq_true_eq, List.all_eq_true] at h
    have hes : ∀ e ∈ es, e.length < 65536 := fun e he => by
      simpa using h.2 e he
    have hfl := decEntries_flatten es [] hes
    rw [List.append_nil] at hfl
    simp [OkPayload.encode, decOkPayload, decU16_u16le _ _ h.1, hfl]
  | num n =>
    simp only [OkPayload.validB, decide_eq_true_eq] at h
    simp [OkPayload.encode, decOkPayload, decU32_u32le0 _ h]

/-- C1 (spec §8, §4.2): for every valid `Message` — any request variant
`Open`, `Read`, `Write`, `Seek`, `Close`, `Stat`, `List`, `Delete` and any
response variant `Ok`, `Err` — encoding it to bytes and decoding those bytes
yields the message again: `decode (encode m) = ok m`, with `encode` total on
all messages by construction. -/
theorem decode_encode_roundtrip (m : Message) (h : m.validB = true) :
    Message.decode m.encode = .ok m := by
  cases m with
  | Open path mode =>
    simp only [Message.validB, decide_eq_true_eq] at h
    simp [Message.encode, Message.decode, decU16_u16le _ _ h]
  | Read hh offs len =>
    simp only [Message.validB, Bool.and_eq_true, decide_eq_true_eq] at h
    simp [Message.encode, Message.decode, decU16_u16le _ _ h.1.1,
      decU32_u32le _ _ h.1.2, decU32_u32le0 _ h.2]
  | Write hh offs payload =>
    simp only [Message.validB, Bool.and_eq_true, decide_eq_true_eq] at h
    simp [Message.encode, Message.decode, decU16_u16le _ _ h.1.1,
      decU32_u32le _ _ h.1.2, decU16_u16le _ _ h.2]
  | Seek hh offs w =>
    simp only [Message.validB, Bool.and_eq_true, decide_eq_true_eq] at h
    simp [Message.encode, Message.decode, decU16_u16le _ _ h.1,
      decU32_u32le _ _ h.2]
  | Close hh =>
    simp only [Message.validB, decide_eq_true_eq] at h
    simp [Message.encode, Message.decode, decU16_u16le0 _ h]
  | Stat path =>
    simp only [Message.validB, decide_eq_true_eq] at h
    simp [Message.encode, Message.decode, decU16_u16le _ _ h]
  | List path =>
    simp only [Message.validB, decide_eq_true_eq] at h
    simp [Message.encode, Message.decode, decU16_u16le _ _ h]
  | Delete path =>
    simp only [Message.validB, decide_eq_true_eq] at h
    simp [Message.encode, Message.decode, decU16_u16le _ _ h]
  | Ok p =>
    simp only [Message.validB] at h
    simp [Message.encode, Message.decode, decOkPayload_encode p h]
  | Err c =>
    simp [Message.encode, Message.decode]

/-- Witness for the round trip: a concrete valid message of each polarity
decodes back from its encoding. -/
theorem decode_encode_roundtrip_witness :
    (Message.Open [47, 97] Mode.read).validB = true ∧
      Message.decode (Message.Open [47, 97] Mode.read).encode =
        .ok (Message.Open [47, 97] Mode.read) :=
  ⟨by decide, decode_encode_roundtrip (Message.Open [47, 97] Mode.read) (by decide)⟩

/-! ## Frame codec (spec §4.1, §3, §6)

Modelled from the spec: the Frame-Codec source is not in the repository (only
the header is).  The definitions below follow §6's wire format
`[START_MARKER][LEN:u16][OPCODE:u8][PAYLOAD: LEN-1 bytes][CHECKSUM:u32]` and
§4.1's deframing policy: accumulate bytes in a bounded buffer, scan to a
start marker, read the length field, reject a zero or over-maximum length at
once (without buffering the declared number of bytes), wait while a frame is
incomplete, check the trailing checksum, and on corruption discard and
resynchronize on the next start marker.  The exact marker byte, maximum
payload and checksum algorithm are design choices the spec leaves open
(§9); fixed here as 0xAA, 1024 bytes and a 32-bit byte sum. -/

/-- Frame start marker byte. -/
def START : Nat := 0xAA

/-- Configured maximum payload size in bytes (spec §4.1: constant memory
ceiling "sized to the largest permitted payload, e.g. a few KB"). -/
def MAX_PAYLOAD : Nat := 1024

/-- Frame checksum over the opcode byte and the payload, reduced to 32 bits. -/
def chksum (body : Bytes) : Nat := body.foldl (fun a b => a + b) 0 % 4294967296

/-- Read the first four bytes of a byte string as a little-endian u32 (only
used where four bytes are known to be present). -/
def peekU32 : Bytes → Nat
  | a :: b :: c :: d :: _ => a + 256 * b + 65536 * c + 16777216 * d
  | _ => 0

/-- A validated frame: the opcode byte and the payload it carries (spec §3:
"a length-delimited, checksummed unit carrying exactly one encoded
Message"). -/
structure Frame where
  opcode : Nat
  payload : Bytes
deriving DecidableEq, Repr

/-- Wire image of a frame: start marker, u16 length (opcode plus payload),
opcode, payload, u32 checksum — all multi-byte integers little-endian. -/
def Frame.wire (f : Frame) : Bytes :=
  START :: u16le (f.payload.length + 1) ++ (f.opcode :: f.payload) ++
    u32le (chksum (f.opcode :: f.payload))

/-- A frame fits on the wire: its payload respects the configured maximum. -/
def Frame.fitsB (f : Frame) : Bool := f.payload.length ≤ MAX_PAYLOAD

/-- One deframing pass over the accumulated buffer, fuelled by the buffer
length (every step consumes at least one byte, so `bs.length` fuel always
suffices).  Policy per spec §4.1: a byte that is not the start marker is
stray and dropped; after a marker, a zero or over-maximum declared length is
rejected immediately — the marker is dropped and scanning resumes at the
length bytes themselves, with nothing buffered; an incomplete frame leaves
the buffer pending; a complete frame is emitted when the trailing checksum
matches and discarded whole when it does not (resynchronizing on the next
start marker). -/
def feedGo : Nat → Bytes → List Frame × Bytes
  | 0, bs => ([], bs)
  | _ + 1, [] => ([], [])
  | fuel + 1, b :: rest =>
    if b = START then
      match rest with
      | l0 :: l1 :: rest2 =>
        let len := l0 + 256 * l1
        if len = 0 ∨ MAX_PAYLOAD + 1 < len then feedGo fuel rest
        else if rest2.length < len + 4 then ([], b :: rest)
        else
          let body := rest2.take len
          let after := rest2.drop (len + 4)
          if peekU32 (rest2.drop len) = chksum body then
            let r := feedGo fuel after
            (⟨body.headD 0, body.tail⟩ :: r.1, r.2)
          else feedGo fuel after
      | _ => ([], b :: rest)
    else feedGo fuel rest

/-- Deframe every complete frame in a byte buffer: the produced frames and
the unconsumed (pending) tail. -/
def feedBytes (bs : Bytes) : List Frame × Bytes := feedGo bs.length bs

/-- Stateful codec feed (spec §4.1 contract `feed(bytes)`): append the new
chunk to the pending buffer and deframe; returns the validated frames of
this call and the new pending buffer.  Restartable across calls. -/
def feed (pending chunk : Bytes) : List Frame × Bytes := feedBytes (pending ++ chunk)

/-- Feed a list of chunks through the codec one call at a time, collecting
the frames of every call in order. -/
def feedChunks (pending : Bytes) : List Bytes → List Frame × Bytes
  | [] => ([], pending)
  | c :: cs =>
    let r1 := feed pending c
    let r2 := feedChunks r1.2 cs
    (r1.1 ++ r2.1, r2.2)

/-- The deframer's result does not depend on the fuel, as long as the fuel
covers the buffer length. -/
theorem feedGo_congr (n : Nat) : ∀ bs : Bytes, ∀ f1 f2 : Nat, bs.length = n →
    n ≤ f1 → n ≤ f2 → feedGo f1 bs = feedGo f2 bs := by
  induction n using Nat.strong_induction_on with
  | _ n ih =>
    intro bs f1 f2 hn h1 h2
    match bs, f1, f2 with
    | [], 0, 0 => rfl
    | [], 0, _ + 1 => rfl
    | [], _ + 1, 0 => rfl
    | [], _ + 1, _ + 1 => rfl
    | b :: rest, f1, f2 =>
      have hpos : 0 < n := by simp [← hn]
      match f1, f2 with
      | 0, _ => exact absurd h1 (by omega)
      | _ + 1, 0 => exact absurd h2 (by omega)
      | k + 1, m + 1 =>
        simp only [feedGo]
        by_cases hb : b = START
        · simp only [hb, if_true]
          match rest with
          | l0 :: l1 :: rest2 =>
            have hr : (l0 :: l1 :: rest2).length < n := by simp [← hn]
            by_cases hlen : l0 + 256 * l1 = 0 ∨ MAX_PAYLOAD + 1 < l0 + 256 * l1
            · simp only [hlen, if_true]
              exact ih _ hr _ k m rfl (by omega) (by omega)
            · simp only [hlen, if_false]
              by_cases hinc : rest2.length < l0 + 256 * l1 + 4
              · simp [hinc]
              · simp only [hinc, if_false]
                have hd : (rest2.drop (l0 + 256 * l1 + 4)).length < n := by
                  simp only [List.length_drop]
                  simp at hn
                  omega
                have heq := ih _ hd _ k m rfl (by omega) (by omega)
                by_cases hchk : peekU32 (rest2.drop (l0 + 256 * l1)) =
                    chksum (rest2.take (l0 + 256 * l1))
                · simp only [hchk, if_true, heq]
                · simp only [hchk, if_false, heq]
          | [] => rfl
          | [l0] => rfl
        · simp only [hb, if_false]
          have hr : rest.length < n := by simp [← hn]
          exact ih _ hr _ k m rfl (by omega) (by omega)

/-- Any sufficient fuel computes `feedBytes`. -/
theorem feedGo_eq_feedBytes (fuel : Nat) (bs : Bytes) (h : bs.length ≤ fuel) :
    feedGo fuel bs = feedBytes bs :=
  feedGo_congr bs.length bs fuel bs.length rfl h (Nat.le_refl _)

/-! ### Deframer unfolding equations -/

/-- One-step unfolding of the deframer on a non-empty buffer. -/
theorem feedGo_succ_cons (fuel : Nat) (b : Nat) (rest : Bytes) :
    feedGo (fuel + 1) (b :: rest) =
      if b = START then
        match rest with
        | l0 :: l1 :: rest2 =>
          if l0 + 256 * l1 = 0 ∨ MAX_PAYLOAD + 1 < l0 + 256 * l1 then feedGo fuel rest
          else if rest2.length < l0 + 256 * l1 + 4 then ([], b :: rest)
          else if peekU32 (rest2.drop (l0 + 256 * l1)) =
              chksum (rest2.take (l0 + 256 * l1)) then
            (⟨(rest2.take (l0 + 256 * l1)).headD 0, (rest2.take (l0 + 256 * l1)).tail⟩ ::
                (feedGo fuel (rest2.drop (l0 + 256 * l1 + 4))).1,
              (feedGo fuel (rest2.drop (l0 + 256 * l1 + 4))).2)
          else feedGo fuel (rest2.drop (l0 + 256 * l1 + 4))
        | _ => ([], b :: rest)
      else feedGo fuel rest := rfl

/-- An empty buffer produces nothing. -/
@[simp] theorem feedBytes_nil : feedBytes [] = ([], []) := rfl

/-- A stray byte (not the start marker) is dropped (spec §3: the codec
"resynchronizes on the next start marker"). -/
theorem feedBytes_stray (b : Nat) (rest : Bytes) (hb : b ≠ START) :
    feedBytes (b :: rest) = feedBytes rest := by
  show feedGo (rest.length + 1) (b :: rest) = feedBytes rest
  rw [feedGo_succ_cons, if_neg hb]
  rfl

/-- A lone start marker stays pending. -/
@[simp] theorem feedBytes_short1 : feedBytes [START] = ([], [START]) := rfl

/-- A start marker with only one length byte stays pending. -/
@[simp] theorem feedBytes_short2 (l0 : Nat) :
    feedBytes [START, l0] = ([], [START, l0]) := rfl

/-- A declared length of zero or above the configured maximum is rejected on
the spot: the marker byte is dropped and scanning resumes at the two length
bytes — nothing is buffered and no frame is produced (spec §4.1, §8). -/
theorem feedBytes_badLen (l0 l1 : Nat) (rest2 : Bytes)
    (h : l0 + 256 * l1 = 0 ∨ MAX_PAYLOAD + 1 < l0 + 256 * l1) :
    feedBytes (START :: l0 :: l1 :: rest2) = feedBytes (l0 :: l1 :: rest2) := by
  show feedGo (rest2.length + 1 + 1 + 1) (START :: l0 :: l1 :: rest2) = _
  rw [feedGo_succ_cons, if_pos rfl]
  show (if l0 + 256 * l1 = 0 ∨ MAX_PAYLOAD + 1 < l0 + 256 * l1 then
      feedGo (rest2.length + 1 + 1) (l0 :: l1 :: rest2) else _) = _
  rw [if_pos h]
  rfl

/-- A frame whose declared bytes have not all arrived stays pending. -/
theorem feedBytes_incomplete (l0 l1 : Nat) (rest2 : Bytes)
    (h1 : ¬(l0 + 256 * l1 = 0 ∨ MAX_PAYLOAD + 1 < l0 + 256 * l1))
    (h2 : rest2.length < l0 + 256 * l1 + 4) :
    feedBytes (START :: l0 :: l1 :: rest2) = ([], START :: l0 :: l1 :: rest2) := by
  show feedGo (rest2.length + 1 + 1 + 1) (START :: l0 :: l1 :: rest2) = _
  rw [feedGo_succ_cons, if_pos rfl]
  show (if l0 + 256 * l1 = 0 ∨ MAX_PAYLOAD + 1 < l0 + 256 * l1 then
      feedGo (rest2.length + 1 + 1) (l0 :: l1 :: rest2)
    else if rest2.length < l0 + 256 * l1 + 4 then ([], START :: l0 :: l1 :: rest2)
    else _) = _
  rw [if_neg h1, if_pos h2]

/-- A complete, in-range span whose checksum matches emits its frame, and
deframing continues right after the span. -/
theorem feedBytes_goodSpan (l0 l1 : Nat) (rest2 : Bytes)
    (h1 : ¬(l0 + 256 * l1 = 0 ∨ MAX_PAYLOAD + 1 < l0 + 256 * l1))
    (h2 : l0 + 256 * l1 + 4 ≤ rest2.length)
    (h3 : peekU32 (rest2.drop (l0 + 256 * l1)) = chksum (rest2.take (l0 + 256 * l1))) :
    feedBytes (START :: l0 :: l1 :: rest2) =
      (⟨(rest2.take (l0 + 256 * l1)).headD 0, (rest2.take (l0 + 256 * l1)).tail⟩ ::
          (feedBytes (rest2.drop (l0 + 256 * l1 + 4))).1,
        (feedBytes (rest2.drop (l0 + 256 * l1 + 4))).2) := by
  have h2n : ¬ rest2.length < l0 + 256 * l1 + 4 := by omega
  have hfix := feedGo_eq_feedBytes (rest2.length + 1 + 1)
    (rest2.drop (l0 + 256 * l1 + 4)) (by simp [List.length_drop]; omega)
  show feedGo (rest2.length + 1 + 1 + 1) (START :: l0 :: l1 :: rest2) = _
  rw [feedGo_succ_cons, if_pos rfl]
  show (if l0 + 256 * l1 = 0 ∨ MAX_PAYLOAD + 1 < l0 + 256 * l1 then
      feedGo (rest2.length + 1 + 1) (l0 :: l1 :: rest2)
    else if rest2.length < l0 + 256 * l1 + 4 then ([], START :: l0 :: l1 :: rest2)
    else if peekU32 (rest2.drop (l0 + 256 * l1)) = chksum (rest2.take (l0 + 256 * l1)) then
      (⟨(rest2.take (l0 + 256 * l1)).headD 0, (rest2.take (l0 + 256 * l1)).tail⟩ ::
          (feedGo (rest2.length + 1 + 1) (rest2.drop (l0 + 256 * l1 + 4))).1,
        (feedGo (rest2.length + 1 + 1) (rest2.drop (l0 + 256 * l1 + 4))).2)
    else feedGo (rest2.length + 1 + 1) (rest2.drop (l0 + 256 * l1 + 4))) = _
  rw [if_neg h1, if_neg h2n, if_pos h3, hfix]

/-- A complete, in-range span whose checksum does not match is discarded
whole and deframing resynchronizes after it (spec §3: a frame is accepted
"only if length is within a configured maximum and checksum matches;
otherwise it is discarded"). -/
theorem feedBytes_badChk (l0 l1 : Nat) (rest2 : Bytes)
    (h1 : ¬(l0 + 256 * l1 = 0 ∨ MAX_PAYLOAD + 1 < l0 + 256 * l1))
    (h2 : l0 + 256 * l1 + 4 ≤ rest2.length)
    (h3 : peekU32 (rest2.drop (l0 + 256 * l1)) ≠ chksum (rest2.take (l0 + 256 * l1))) :
    feedBytes (START :: l0 :: l1 :: rest2) =
      feedBytes (rest2.drop (l0 + 256 * l1 + 4)) := by
  have h2n : ¬ rest2.length < l0 + 256 * l1 + 4 := by omega
  have hfix := feedGo_eq_feedBytes (rest2.length + 1 + 1)
    (rest2.drop (l0 + 256 * l1 + 4)) (by simp [List.length_drop]; omega)
  show feedGo (rest2.length + 1 + 1 + 1) (START :: l0 :: l1 :: rest2) = _
  rw [feedGo_succ_cons, if_pos rfl]
  show (if l0 + 256 * l1 = 0 ∨ MAX_PAYLOAD + 1 < l0 + 256 * l1 then
      feedGo (rest2.length + 1 + 1) (l0 :: l1 :: rest2)
    else if rest2.length < l0 + 256 * l1 + 4 then ([], START :: l0 :: l1 :: rest2)
    else if peekU32 (rest2.drop (l0 + 256 * l1)) = chksum (rest2.take (l0 + 256 * l1)) then
      (⟨(rest2.take (l0 + 256 * l1)).headD 0, (rest2.take (l0 + 256 * l1)).tail⟩ ::
          (feedGo (rest2.length + 1 + 1) (rest2.drop (l0 + 256 * l1 + 4))).1,
        (feedGo (rest2.length + 1 + 1) (rest2.drop (l0 + 256 * l1 + 4))).2)
    else feedGo (rest2.length + 1 + 1) (rest2.drop (l0 + 256 * l1 + 4))) = _
  rw [if_neg h1, if_neg h2n, if_neg h3, hfix]

/-- The checksum value always fits in its 32-bit wire field. -/
theorem chksum_lt (body : Bytes) : chksum body < 4294967296 :=
  Nat.mod_lt _ (by omega)

/-- Reading back a u32 checksum field from the head of a tail. -/
theorem peekU32_u32le (n : Nat) (r : Bytes) (h : n < 4294967296) :
    peekU32 (u32le n ++ r) = n := by
  simp only [u32le, List.cons_append, List.nil_append, peekU32]
  omega

/-- Frame-level round trip: a well-formed wire frame at the head of the
buffer is produced exactly once and deframing continues on the tail. -/
theorem feedBytes_wire (f : Frame) (rest : Bytes) (hfit : f.fitsB = true) :
    feedBytes (f.wire ++ rest) =
      (f :: (feedBytes rest).1, (feedBytes rest).2) := by
  obtain ⟨op, pl⟩ := f
  simp only [Frame.fitsB, decide_eq_true_eq] at hfit
  have hmax : MAX_PAYLOAD = 1024 := rfl
  have hwire : Frame.wire ⟨op, pl⟩ ++ rest =
      START :: (pl.length + 1) % 256 :: (pl.length + 1) / 256 % 256 ::
        ((op :: pl) ++ (u32le (chksum (op :: pl)) ++ rest)) := by
    simp [Frame.wire, u16le]
  have harith : (pl.length + 1) % 256 + 256 * ((pl.length + 1) / 256 % 256) =
      pl.length + 1 := by omega
  have hbody : ((op :: pl) ++ (u32le (chksum (op :: pl)) ++ rest)).take (pl.length + 1) =
      op :: pl := by
    have hl : (op :: pl).length = pl.length + 1 := by simp
    rw [← hl, List.take_left]
  have hdropLen : ((op :: pl) ++ (u32le (chksum (op :: pl)) ++ rest)).drop (pl.length + 1) =
      u32le (chksum (op :: pl)) ++ rest := by
    have hl : (op :: pl).length = pl.length + 1 := by simp
    rw [← hl, List.drop_left]
  have hdropAll : ((op :: pl) ++ (u32le (chksum (op :: pl)) ++ rest)).drop
      (pl.length + 1 + 4) = rest := by
    rw [← List.drop_drop, hdropLen]
    simp [u32le]
  have h1 : ¬((pl.length + 1) % 256 + 256 * ((pl.length + 1) / 256 % 256) = 0 ∨
      MAX_PAYLOAD + 1 < (pl.length + 1) % 256 + 256 * ((pl.length + 1) / 256 % 256)) := by
    rw [harith]
    omega
  have h2 : (pl.length + 1) % 256 + 256 * ((pl.length + 1) / 256 % 256) + 4 ≤
      ((op :: pl) ++ (u32le (chksum (op :: pl)) ++ rest)).length := by
    rw [harith]
    simp [u32le]
  have h3 : peekU32 (((op :: pl) ++ (u32le (chksum (op :: pl)) ++ rest)).drop
      ((pl.length + 1) % 256 + 256 * ((pl.length + 1) / 256 % 256))) =
      chksum (((op :: pl) ++ (u32le (chksum (op :: pl)) ++ rest)).take
      ((pl.length + 1) % 256 + 256 * ((pl.length + 1) / 256 % 256))) := by
    rw [harith, hbody, hdropLen, peekU32_u32le _ _ (chksum_lt _)]
  have hmain := feedBytes_goodSpan ((pl.length + 1) % 256) ((pl.length + 1) / 256 % 256)
    ((op :: pl) ++ (u32le (chksum (op :: pl)) ++ rest)) h1 h2 h3
  rw [harith, hbody, hdropAll] at hmain
  rw [hwire, hmain]
  simp

/-- `peekU32` only looks at the first four bytes. -/
theorem peekU32_append (x r : Bytes) (h : 4 ≤ x.length) :
    peekU32 (x ++ r) = peekU32 x := by
  match x with
  | a :: b :: c :: d :: x2 => rfl
  | [] => simp at h
  | [a] => simp at h
  | [a, b] => simp at h
  | [a, b, c] => simp at h

/-- Extending the input on the right factors through the pending buffer:
deframing `b ++ c` produces the frames of `b` followed by the frames of the
pending tail of `b` extended with `c`.  This is the heart of the
chunk-independence property (spec §8). -/
theorem feedBytes_append_le : ∀ (n : Nat) (b : Bytes), b.length ≤ n → ∀ c : Bytes,
    feedBytes (b ++ c) =
      ((feedBytes b).1 ++ (feedBytes ((feedBytes b).2 ++ c)).1,
        (feedBytes ((feedBytes b).2 ++ c)).2) := by
  intro n
  induction n with
  | zero =>
    intro b hb c
    have : b = [] := List.eq_nil_of_length_eq_zero (Nat.le_zero.mp hb)
    subst this
    simp
  | succ k ih =>
    intro b hb c
    match b with
    | [] => simp
    | x :: rest =>
      by_cases hx : x = START
      · subst hx
        match rest with
        | [] => simp
        | [l0] => simp
        | l0 :: l1 :: rest2 =>
          by_cases hlen : l0 + 256 * l1 = 0 ∨ MAX_PAYLOAD + 1 < l0 + 256 * l1
          · have hL : feedBytes ((START :: l0 :: l1 :: rest2) ++ c) =
                feedBytes ((l0 :: l1 :: rest2) ++ c) := by
              show feedBytes (START :: ((l0 :: l1 :: rest2) ++ c)) = _
              rw [show START :: ((l0 :: l1 :: rest2) ++ c) =
                START :: l0 :: l1 :: (rest2 ++ c) from rfl]
              exact feedBytes_badLen l0 l1 (rest2 ++ c) hlen
            rw [hL, feedBytes_badLen l0 l1 rest2 hlen]
            exact ih (l0 :: l1 :: rest2) (by simp at hb ⊢; omega) c
          · by_cases hinc : rest2.length < l0 + 256 * l1 + 4
            · rw [feedBytes_incomplete l0 l1 rest2 hlen hinc]
              simp
            · have hcomp : l0 + 256 * l1 + 4 ≤ rest2.length := by omega
              have hlenle : l0 + 256 * l1 ≤ rest2.length := by omega
              have hcompc : l0 + 256 * l1 + 4 ≤ (rest2 ++ c).length := by
                simp
                omega
              have htake : (rest2 ++ c).take (l0 + 256 * l1) =
                  rest2.take (l0 + 256 * l1) :=
                List.take_append_of_le_length hlenle
              have hdrop : (rest2 ++ c).drop (l0 + 256 * l1) =
                  rest2.drop (l0 + 256 * l1) ++ c :=
                List.drop_append_of_le_length hlenle
              have hdrop4 : (rest2 ++ c).drop (l0 + 256 * l1 + 4) =
                  rest2.drop (l0 + 256 * l1 + 4) ++ c :=
                List.drop_append_of_le_length hcomp
              have hpeek : peekU32 ((rest2 ++ c).drop (l0 + 256 * l1)) =
                  peekU32 (rest2.drop (l0 + 256 * l1)) := by
                rw [hdrop]
                exact peekU32_append _ c (by simp [List.length_drop]; omega)
              have ihdrop := ih (rest2.drop (l0 + 256 * l1 + 4))
                (by simp at hb ⊢; omega) c
              by_cases hchk : peekU32 (rest2.drop (l0 + 256 * l1)) =
                  chksum (rest2.take (l0 + 256 * l1))
              · have hLc : feedBytes ((START :: l0 :: l1 :: rest2) ++ c) =
                    (⟨((rest2 ++ c).take (l0 + 256 * l1)).headD 0,
                        ((rest2 ++ c).take (l0 + 256 * l1)).tail⟩ ::
                        (feedBytes ((rest2 ++ c).drop (l0 + 256 * l1 + 4))).1,
                      (feedBytes ((rest2 ++ c).drop (l0 + 256 * l1 + 4))).2) := by
                  show feedBytes (START :: l0 :: l1 :: (rest2 ++ c)) = _
                  exact feedBytes_goodSpan l0 l1 (rest2 ++ c) hlen hcompc
                    (by rw [hpeek, htake]; exact hchk)
                rw [hLc, feedBytes_goodSpan l0 l1 rest2 hlen hcomp hchk,
                  htake, hdrop4, ihdrop]
                simp
              · have hLc : feedBytes ((START :: l0 :: l1 :: rest2) ++ c) =
                    feedBytes ((rest2 ++ c).drop (l0 + 256 * l1 + 4)) := by
                  show feedBytes (START :: l0 :: l1 :: (rest2 ++ c)) = _
                  exact feedBytes_badChk l0 l1 (rest2 ++ c) hlen hcompc
                    (by rw [hpeek, htake]; exact hchk)
                rw [hLc, feedBytes_badChk l0 l1 rest2 hlen hcomp hchk,
                  hdrop4, ihdrop]
      · have hL : feedBytes ((x :: rest) ++ c) = feedBytes (rest ++ c) := by
          show feedBytes (x :: (rest ++ c)) = _
          exact feedBytes_stray x (rest ++ c) hx
        rw [hL, feedBytes_stray x rest hx]
        exact ih rest (by simpa using Nat.le_of_succ_le_succ (by simpa using hb)) c

/-- Composition form of the deframer on concatenated input. -/
theorem feedBytes_append (b c : Bytes) :
    feedBytes (b ++ c) =
      ((feedBytes b).1 ++ (feedBytes ((feedBytes b).2 ++ c)).1,
        (feedBytes ((feedBytes b).2 ++ c)).2) :=
  feedBytes_append_le b.length b (Nat.le_refl _) c

/-- The pending buffer left by a deframing pass is stable: feeding it again
produces no frames (it is a genuinely incomplete tail). -/
theorem feedBytes_pending_le : ∀ (n : Nat) (b : Bytes), b.length ≤ n →
    feedBytes (feedBytes b).2 = ([], (feedBytes b).2) := by
  intro n
  induction n with
  | zero =>
    intro b hb
    have : b = [] := List.eq_nil_of_length_eq_zero (Nat.le_zero.mp hb)
    subst this
    simp
  | succ k ih =>
    intro b hb
    match b with
    | [] => simp
    | x :: rest =>
      by_cases hx : x = START
      · subst hx
        match rest with
        | [] => simp
        | [l0] => simp
        | l0 :: l1 :: rest2 =>
          by_cases hlen : l0 + 256 * l1 = 0 ∨ MAX_PAYLOAD + 1 < l0 + 256 * l1
          · rw [feedBytes_badLen l0 l1 rest2 hlen]
            exact ih (l0 :: l1 :: rest2) (by simp at hb ⊢; omega)
          · by_cases hinc : rest2.length < l0 + 256 * l1 + 4
            · rw [feedBytes_incomplete l0 l1 rest2 hlen hinc]
              exact feedBytes_incomplete l0 l1 rest2 hlen hinc
            · have hcomp : l0 + 256 * l1 + 4 ≤ rest2.length := by omega
              have ihdrop := ih (rest2.drop (l0 + 256 * l1 + 4))
                (by simp at hb ⊢; omega)
              by_cases hchk : peekU32 (rest2.drop (l0 + 256 * l1)) =
                  chksum (rest2.take (l0 + 256 * l1))
              · rw [feedBytes_goodSpan l0 l1 rest2 hlen hcomp hchk]
                exact ihdrop
              · rw [feedBytes_badChk l0 l1 rest2 hlen hcomp hchk]
                exact ihdrop
      · rw [feedBytes_stray x rest hx]
        exact ih rest (by simp at hb ⊢; omega)

/-- The pending buffer left by a deframing pass is stable. -/
theorem feedBytes_pending (b : Bytes) :
    feedBytes (feedBytes b).2 = ([], (feedBytes b).2) :=
  feedBytes_pending_le b.length b (Nat.le_refl _)

/-- Feeding chunks through the stateful codec from any stable pending buffer
equals deframing the whole concatenation at once. -/
theorem feedChunks_flatten : ∀ (cs : List Bytes) (p : Bytes), feedBytes p = ([], p) →
    feedChunks p cs = feedBytes (p ++ cs.flatten) := by
  intro cs
  induction cs with
  | nil =>
    intro p hp
    simp [feedChunks, hp]
  | cons c cs ih =>
    intro p hp
    simp only [feedChunks, feed]
    rw [ih _ (feedBytes_pending (p ++ c))]
    rw [List.flatten_cons, show p ++ (c ++ cs.flatten) = (p ++ c) ++ cs.flatten from
      (List.append_assoc p c cs.flatten).symm]
    rw [feedBytes_append (p ++ c) cs.flatten]

/-- C3 (spec §8, §4.1): the Frame Codec's output is independent of how the
input byte stream is partitioned into `feed` calls.  For every partition of
a finite stream into chunks, feeding the chunks one call at a time produces
exactly the frames of deframing the whole stream at once — in particular,
feeding one byte at a time equals feeding all bytes in a single call. -/
theorem framing_chunk_independent :
    (∀ cs : List Bytes, feedChunks [] cs = feedBytes cs.flatten) ∧
    (∀ bs : Bytes, feedChunks [] (bs.map (fun b => [b])) = feedBytes bs) := by
  have hmain : ∀ cs : List Bytes, feedChunks [] cs = feedBytes cs.flatten := by
    intro cs
    simpa using feedChunks_flatten cs [] (by simp)
  refine ⟨hmain, fun bs => ?_⟩
  have hfl : (bs.map (fun b => [b])).flatten = bs := by
    induction bs with
    | nil => simp
    | cons b bs ih => simp [ih]
  rw [hmain, hfl]

/-- A run of stray bytes containing no start marker is dropped entirely. -/
theorem feedBytes_strayRun (g x : Bytes) (hg : ∀ b ∈ g, b ≠ START) :
    feedBytes (g ++ x) = feedBytes x := by
  induction g with
  | nil => simp
  | cons b g ih =>
    have hb : b ≠ START := hg b (by simp)
    have hg2 : ∀ y ∈ g, y ≠ START := fun y hy => hg y (by simp [hy])
    rw [List.cons_append, feedBytes_stray b (g ++ x) hb, ih hg2]

/-- Wire image of a frame whose trailing checksum field carries the (wrong)
value `w` instead of the true checksum: a complete but corrupt frame. -/
def corruptWire (fc : Frame) (w : Nat) : Bytes :=
  START :: u16le (fc.payload.length + 1) ++ (fc.opcode :: fc.payload) ++ u32le w

/-- A complete frame-shaped span with in-range length and mismatched
checksum is discarded whole: deframing continues exactly at the bytes after
the span, producing nothing from it. -/
theorem feedBytes_corrupt (fc : Frame) (w : Nat) (rest : Bytes)
    (hfit : fc.fitsB = true) (hw : w < 4294967296)
    (hne : w ≠ chksum (fc.opcode :: fc.payload)) :
    feedBytes (corruptWire fc w ++ rest) = feedBytes rest := by
  obtain ⟨op, pl⟩ := fc
  simp only [Frame.fitsB, decide_eq_true_eq] at hfit
  simp only at hne
  have hmax : MAX_PAYLOAD = 1024 := rfl
  have hwire : corruptWire ⟨op, pl⟩ w ++ rest =
      START :: (pl.length + 1) % 256 :: (pl.length + 1) / 256 % 256 ::
        ((op :: pl) ++ (u32le w ++ rest)) := by
    simp [corruptWire, u16le]
  have harith : (pl.length + 1) % 256 + 256 * ((pl.length + 1) / 256 % 256) =
      pl.length + 1 := by omega
  have hbody : ((op :: pl) ++ (u32le w ++ rest)).take (pl.length + 1) = op :: pl := by
    have hl : (op :: pl).length = pl.length + 1 := by simp
    rw [← hl, List.take_left]
  have hdropLen : ((op :: pl) ++ (u32le w ++ rest)).drop (pl.length + 1) =
      u32le w ++ rest := by
    have hl : (op :: pl).length = pl.length + 1 := by simp
    rw [← hl, List.drop_left]
  have hdropAll : ((op :: pl) ++ (u32le w ++ rest)).drop (pl.length + 1 + 4) = rest := by
    rw [← List.drop_drop, hdropLen]
    simp [u32le]
  have h1 : ¬((pl.length + 1) % 256 + 256 * ((pl.length + 1) / 256 % 256) = 0 ∨
      MAX_PAYLOAD + 1 < (pl.length + 1) % 256 + 256 * ((pl.length + 1) / 256 % 256)) := by
    rw [harith]
    omega
  have h2 : (pl.length + 1) % 256 + 256 * ((pl.length + 1) / 256 % 256) + 4 ≤
      ((op :: pl) ++ (u32le w ++ rest)).length := by
    rw [harith]
    simp [u32le]
  have h3 : peekU32 (((op :: pl) ++ (u32le w ++ rest)).drop
      ((pl.length + 1) % 256 + 256 * ((pl.length + 1) / 256 % 256))) ≠
      chksum (((op :: pl) ++ (u32le w ++ rest)).take
      ((pl.length + 1) % 256 + 256 * ((pl.length + 1) / 256 % 256))) := by
    rw [harith, hbody, hdropLen, peekU32_u32le _ _ hw]
    exact hne
  have hmain := feedBytes_badChk ((pl.length + 1) % 256) ((pl.length + 1) / 256 % 256)
    ((op :: pl) ++ (u32le w ++ rest)) h1 h2 h3
  rw [harith, hdropAll] at hmain
  rw [hwire, hmain]

/-- C4, counterexample to the claim as stated: stray bytes may contain a
spurious start marker whose two following bytes declare an in-range length
larger than the remaining input; the codec then (correctly, per §4.1) waits
for the declared bytes, and the well-formed frame that follows the stray
bytes is swallowed into the pending span rather than produced.  Here the
stray bytes `[START, 255, 3]` declare length 1023, so the valid 9-byte frame
behind them yields no output. -/
theorem resync_counterexample :
    Frame.fitsB ⟨1, [7]⟩ = true ∧
      (feedBytes ([START, 255, 3] ++ Frame.wire ⟨1, [7]⟩)).1 = [] := by
  constructor
  · decide
  · decide

/-- C4 (amended; spec §8, §3): after a malformed section of the stream, the
very next well-formed frame is still correctly decoded, provided the
malformed section is (i) any run of stray bytes none of which happens to be
the start-marker byte, or (ii) a complete frame-shaped span with in-range
length and mismatched checksum.  (For arbitrary stray bytes the property
fails: see the counterexample — a stray start marker can open a pending
span that swallows the next valid frame.) -/
theorem resync_next_frame_decoded :
    (∀ (g : Bytes) (f : Frame) (rest : Bytes), (∀ b ∈ g, b ≠ START) →
        f.fitsB = true →
        feedBytes (g ++ (f.wire ++ rest)) =
          (f :: (feedBytes rest).1, (feedBytes rest).2)) ∧
    (∀ (fc : Frame) (w : Nat) (f : Frame) (rest : Bytes), fc.fitsB = true →
        w < 4294967296 → w ≠ chksum (fc.opcode :: fc.payload) → f.fitsB = true →
        feedBytes (corruptWire fc w ++ (f.wire ++ rest)) =
          (f :: (feedBytes rest).1, (feedBytes rest).2)) := by
  constructor
  · intro g f rest hg hf
    rw [feedBytes_strayRun g _ hg, feedBytes_wire f rest hf]
  · intro fc w f rest hfc hw hne hf
    rw [feedBytes_corrupt fc w _ hfc hw hne, feedBytes_wire f rest hf]

/-- Witness: a marker-free stray run and a complete corrupt frame, each
followed by a concrete valid frame, which is produced in both cases. -/
theorem resync_next_frame_decoded_witness :
    feedBytes ([5, 6] ++ (Frame.wire ⟨1, [7]⟩ ++ [])) =
      (⟨1, [7]⟩ :: (feedBytes []).1, (feedBytes []).2) ∧
    feedBytes (corruptWire ⟨2, [9]⟩ 0 ++ (Frame.wire ⟨1, [7]⟩ ++ [])) =
      (⟨1, [7]⟩ :: (feedBytes []).1, (feedBytes []).2) :=
  ⟨resync_next_frame_decoded.1 [5, 6] ⟨1, [7]⟩ [] (by decide) (by decide),
    resync_next_frame_decoded.2 ⟨2, [9]⟩ 0 ⟨1, [7]⟩ [] (by decide) (by decide)
      (by decide) (by decide)⟩

/-- C5 (spec §3, §8): a frame whose declared payload length exceeds the
configured maximum, or whose trailing checksum does not match its body, is
never accepted: (i) on an over-maximum declared length the codec produces no
frame from the span and resumes scanning at the very next byte after the
marker — for every tail, including tails far shorter than the declared
length, so the declared number of bytes is never buffered or waited for;
(ii) a complete span with mismatched checksum produces no frame and
deframing continues after the span, exactly as if it were absent. -/
theorem bad_frames_never_accepted :
    (∀ (l0 l1 : Nat) (rest2 : Bytes), MAX_PAYLOAD + 1 < l0 + 256 * l1 →
        feedBytes (START :: l0 :: l1 :: rest2) = feedBytes (l0 :: l1 :: rest2)) ∧
    (∀ (fc : Frame) (w : Nat) (rest : Bytes), fc.fitsB = true → w < 4294967296 →
        w ≠ chksum (fc.opcode :: fc.payload) →
        feedBytes (corruptWire fc w ++ rest) = feedBytes rest) := by
  constructor
  · intro l0 l1 rest2 h
    exact feedBytes_badLen l0 l1 rest2 (Or.inr h)
  · intro fc w rest hfc hw hne
    exact feedBytes_corrupt fc w rest hfc hw hne

/-- Witness: a declared length of 65535 with no bytes behind it is rejected
immediately, and a concrete corrupt frame is skipped without output. -/
theorem bad_frames_never_accepted_witness :
    feedBytes [START, 255, 255] = feedBytes [255, 255] ∧
    feedBytes (corruptWire ⟨3, [1, 2]⟩ 5 ++ [START]) = feedBytes [START] :=
  ⟨bad_frames_never_accepted.1 255 255 [] (by decide),
    bad_frames_never_accepted.2 ⟨3, [1, 2]⟩ 5 [START] (by decide) (by decide)
      (by decide)⟩

/-! ## Filesystem Adapter seam (spec §4.4)

Modelled from the spec: the adapter implementation is external to the core
("interface only — implementation external"), and no adapter source is in
the repository.  The `Adapter` structure is §4.4's contract surface; the
reference `fsAdapter` below instantiates it over an explicit in-memory
state so the dispatch scenarios of §8 can be settled. -/

/-- Adapter-reported failures (spec §4.3: "not-found, permission, I/O,
out-of-space, invalid-handle"). -/
inductive AdapterErr
  | notFound
  | permission
  | io
  | outOfSpace
  | invalidHandle
deriving DecidableEq, Repr

/-- 1:1 translation of adapter-reported failures into protocol error codes
(spec §4.3, §7c). -/
def translateErr : AdapterErr → ErrorCode
  | .notFound => .NotFound
  | .permission => .PermissionDenied
  | .io => .IoError
  | .outOfSpace => .OutOfSpace
  | .invalidHandle => .InvalidHandle

/-- Stat-info returned by the adapter (spec §4.4: `{size, kind, mtime}`). -/
structure StatInfo where
  size : Nat
  kind : FileKind
  mtime : Nat
deriving DecidableEq, Repr

/-- The Filesystem Adapter contract surface the core depends on (spec §4.4),
over an abstract adapter state `σ`: every operation is synchronous and
returns the new state with a result or an adapter error. -/
structure Adapter (σ : Type) where
  openF : σ → Bytes → Mode → σ × Except AdapterErr Nat
  readF : σ → Nat → Nat → Nat → σ × Except AdapterErr Bytes
  writeF : σ → Nat → Nat → Bytes → σ × Except AdapterErr Nat
  seekF : σ → Nat → Nat → Whence → σ × Except AdapterErr Nat
  closeF : σ → Nat → σ × Except AdapterErr Unit
  statF : σ → Bytes → σ × Except AdapterErr StatInfo
  listF : σ → Bytes → σ × Except AdapterErr (List Bytes)
  deleteF : σ → Bytes → σ × Except AdapterErr Unit

/-- Wrap an adapter result as a response: success payloads become `Ok`,
adapter failures are translated into `Err` codes. -/
def wrapResp {α : Type} (mk : α → OkPayload) : Except AdapterErr α → Message
  | .ok a => .Ok (mk a)
  | .error e => .Err (translateErr e)

/-- Dispatch policy (spec §4.3): map each request variant to exactly one
Filesystem Adapter call and wrap the outcome as the response; a
response-variant message arriving as a request is answered with
`Err Unsupported`. -/
def dispatch {σ : Type} (a : Adapter σ) (s : σ) : Message → σ × Message
  | .Open path mode => ((a.openF s path mode).1, wrapResp .handle (a.openF s path mode).2)
  | .Read h offs len => ((a.readF s h offs len).1, wrapResp .data (a.readF s h offs len).2)
  | .Write h offs d => ((a.writeF s h offs d).1, wrapResp .num (a.writeF s h offs d).2)
  | .Seek h offs w => ((a.seekF s h offs w).1, wrapResp .num (a.seekF s h offs w).2)
  | .Close h => ((a.closeF s h).1, wrapResp (fun _ => .nothing) (a.closeF s h).2)
  | .Stat path => ((a.statF s path).1,
      wrapResp (fun i => .stat i.size i.kind i.mtime) (a.statF s path).2)
  | .List path => ((a.listF s path).1, wrapResp .entries (a.listF s path).2)
  | .Delete path => ((a.deleteF s path).1, wrapResp (fun _ => .nothing) (a.deleteF s path).2)
  | .Ok _ => (s, .Err .Unsupported)
  | .Err _ => (s, .Err .Unsupported)

/-! ### Reference in-memory filesystem (spec §3 Handle, §9)

Modelled from the spec: handles are "an index into an explicitly owned table
inside the Filesystem Adapter", created on successful Open and invalidated
on Close; reads past end-of-file return an empty byte sequence (§8). -/

/-- A file of the reference filesystem. -/
structure FsFile where
  path : Bytes
  contents : Bytes
deriving DecidableEq, Repr

/-- An entry of the open-handle table. -/
structure OpenHandle where
  id : Nat
  path : Bytes
  mode : Mode
deriving DecidableEq, Repr

/-- Reference filesystem state: the files, the open-handle table and the
next fresh handle identifier. -/
structure FsState where
  files : List FsFile
  handles : List OpenHandle
  nextId : Nat
deriving DecidableEq, Repr

/-- Look a file up by path. -/
def findFile (fs : FsState) (p : Bytes) : Option FsFile :=
  fs.files.find? (fun f => f.path == p)

/-- Look an open handle up by identifier. -/
def findHandle (fs : FsState) (h : Nat) : Option OpenHandle :=
  fs.handles.find? (fun oh => oh.id == h)

/-- Open an existing file: a fresh handle is added to the table and
returned; a missing path is `notFound`. -/
def fsOpen (fs : FsState) (p : Bytes) (m : Mode) : FsState × Except AdapterErr Nat :=
  match findFile fs p with
  | some _ =>
    ({ fs with handles := ⟨fs.nextId, p, m⟩ :: fs.handles, nextId := fs.nextId + 1 },
      .ok fs.nextId)
  | none => (fs, .error .notFound)

/-- Read `len` bytes at offset `offs` through a handle: at or past
end-of-file the result is the empty byte sequence, not an error; an unknown
handle is `invalidHandle`. -/
def fsRead (fs : FsState) (h offs len : Nat) : FsState × Except AdapterErr Bytes :=
  match findHandle fs h with
  | some oh =>
    match findFile fs oh.path with
    | some f => (fs, .ok ((f.contents.drop offs).take len))
    | none => (fs, .error .io)
  | none => (fs, .error .invalidHandle)

/-- Write bytes at an offset through a handle, returning bytes written. -/
def fsWrite (fs : FsState) (h offs : Nat) (d : Bytes) : FsState × Except AdapterErr Nat :=
  match findHandle fs h with
  | some oh =>
    match findFile fs oh.path with
    | some f =>
      ({ fs with files := fs.files.map (fun g =>
          if g.path == oh.path
          then ⟨g.path, f.contents.take offs ++ d ++ f.contents.drop (offs + d.length)⟩
          else g) },
        .ok d.length)
    | none => (fs, .error .io)
  | none => (fs, .error .invalidHandle)

/-- Seek through a handle (offsets are explicit per request, so the new
offset is the requested one). -/
def fsSeek (fs : FsState) (h offs : Nat) (_w : Whence) : FsState × Except AdapterErr Nat :=
  match findHandle fs h with
  | some _ => (fs, .ok offs)
  | none => (fs, .error .invalidHandle)

/-- Close a handle: it is removed from the table and thereby invalidated;
closing an unknown handle is `invalidHandle`. -/
def fsClose (fs : FsState) (h : Nat) : FsState × Except AdapterErr Unit :=
  match findHandle fs h with
  | some _ => ({ fs with handles := fs.handles.filter (fun oh => oh.id != h) }, .ok ())
  | none => (fs, .error .invalidHandle)

/-- Stat a path. -/
def fsStat (fs : FsState) (p : Bytes) : FsState × Except AdapterErr StatInfo :=
  match findFile fs p with
  | some f => (fs, .ok ⟨f.contents.length, .file, 0⟩)
  | none => (fs, .error .notFound)

/-- List directory entries (the reference model keeps a flat namespace). -/
def fsList (fs : FsState) (_p : Bytes) : FsState × Except AdapterErr (List Bytes) :=
  (fs, .ok (fs.files.map (fun f => f.path)))

/-- Delete a path. -/
def fsDelete (fs : FsState) (p : Bytes) : FsState × Except AdapterErr Unit :=
  match findFile fs p with
  | some _ => ({ fs with files := fs.files.filter (fun f => f.path != p) }, .ok ())
  | none => (fs, .error .notFound)

/-- The reference Filesystem Adapter instance. -/
def fsAdapter : Adapter FsState :=
  ⟨fsOpen, fsRead, fsWrite, fsSeek, fsClose, fsStat, fsList, fsDelete⟩

/-- C8 (spec §8 scenario, §3 Handle lifecycle): on a filesystem holding one
file `p` with contents `c`, `Open(p, read)` succeeds with the fresh handle 1;
a `Read` of `n` bytes at an offset with at least `n` bytes remaining returns
`Ok` with exactly those `n` bytes; a `Read` at or past end-of-file returns
`Ok` with an empty byte sequence, not an error; and once the handle is
closed, any further `Read` on it returns `Err InvalidHandle`. -/
theorem open_read_close_semantics (p c : Bytes) (offs n offs2 n2 offs3 n3 : Nat) :
    dispatch fsAdapter ⟨[⟨p, c⟩], [], 1⟩ (.Open p .read) =
      (⟨[⟨p, c⟩], [⟨1, p, .read⟩], 2⟩, .Ok (.handle 1)) ∧
    (offs + n ≤ c.length →
      dispatch fsAdapter ⟨[⟨p, c⟩], [⟨1, p, .read⟩], 2⟩ (.Read 1 offs n) =
        (⟨[⟨p, c⟩], [⟨1, p, .read⟩], 2⟩, .Ok (.data ((c.drop offs).take n))) ∧
      ((c.drop offs).take n).length = n) ∧
    (c.length ≤ offs2 →
      dispatch fsAdapter ⟨[⟨p, c⟩], [⟨1, p, .read⟩], 2⟩ (.Read 1 offs2 n2) =
        (⟨[⟨p, c⟩], [⟨1, p, .read⟩], 2⟩, .Ok (.data []))) ∧
    dispatch fsAdapter ⟨[⟨p, c⟩], [⟨1, p, .read⟩], 2⟩ (.Close 1) =
      (⟨[⟨p, c⟩], [], 2⟩, .Ok .nothing) ∧
    dispatch fsAdapter ⟨[⟨p, c⟩], [], 2⟩ (.Read 1 offs3 n3) =
      (⟨[⟨p, c⟩], [], 2⟩, .Err .InvalidHandle) := by
  refine ⟨?_, ?_, ?_, ?_, ?_⟩
  · simp [dispatch, fsAdapter, fsOpen, findFile, wrapResp]
  · intro hr
    constructor
    · simp [dispatch, fsAdapter, fsRead, findHandle, findFile, wrapResp]
    · simp only [List.length_take, List.length_drop]
      omega
  · intro hr
    have hnil : c.drop offs2 = [] := List.drop_eq_nil_of_le hr
    simp [dispatch, fsAdapter, fsRead, findHandle, findFile, wrapResp, hnil]
  · simp [dispatch, fsAdapter, fsClose, findHandle, wrapResp]
  · simp [dispatch, fsAdapter, fsRead, findHandle, wrapResp, translateErr]

/-- Witness: the §8 scenario itself — a 4-byte file, `Read(1,0,4)` returns
the four bytes, `Read(1,4,4)` returns `Ok` with no bytes, and after
`Close(1)` a `Read` is `Err InvalidHandle`. -/
theorem open_read_close_semantics_witness :
    dispatch fsAdapter ⟨[⟨[47, 97], [10, 20, 30, 40]⟩], [], 1⟩ (.Open [47, 97] .read) =
      (⟨[⟨[47, 97], [10, 20, 30, 40]⟩], [⟨1, [47, 97], .read⟩], 2⟩, .Ok (.handle 1)) ∧
    dispatch fsAdapter ⟨[⟨[47, 97], [10, 20, 30, 40]⟩], [⟨1, [47, 97], .read⟩], 2⟩
        (.Read 1 0 4) =
      (⟨[⟨[47, 97], [10, 20, 30, 40]⟩], [⟨1, [47, 97], .read⟩], 2⟩,
        .Ok (.data [10, 20, 30, 40])) ∧
    dispatch fsAdapter ⟨[⟨[47, 97], [10, 20, 30, 40]⟩], [⟨1, [47, 97], .read⟩], 2⟩
        (.Read 1 4 4) =
      (⟨[⟨[47, 97], [10, 20, 30, 40]⟩], [⟨1, [47, 97], .read⟩], 2⟩, .Ok (.data [])) ∧
    dispatch fsAdapter ⟨[⟨[47, 97], [10, 20, 30, 40]⟩], [⟨1, [47, 97], .read⟩], 2⟩
        (.Close 1) =
      (⟨[⟨[47, 97], [10, 20, 30, 40]⟩], [], 2⟩, .Ok .nothing) ∧
    dispatch fsAdapter ⟨[⟨[47, 97], [10, 20, 30, 40]⟩], [], 2⟩ (.Read 1 0 1) =
      (⟨[⟨[47, 97], [10, 20, 30, 40]⟩], [], 2⟩, .Err .InvalidHandle) := by
  have h := open_read_close_semantics [47, 97] [10, 20, 30, 40] 0 4 4 4 0 1
  exact ⟨h.1, (h.2.1 (by decide)).1, h.2.2.1 (by decide), h.2.2.2.1, h.2.2.2.2⟩

/-! ## Transfer State Machine and UART worker (spec §4.3, §4.5, §5)

Modelled from the spec: the state-machine source is not in the repository.
States and transitions follow §4.3: `Idle → Receiving → Decoded → Dispatched
→ Responding → Idle`, with the error path from any state back to `Idle`
after emitting an `Err`.  Time is abstract (natural-number instants); each
exchange's deadline starts when the first byte of a new frame is observed.
The single worker (§4.5) drives the machine with the events below; the
adapter's behavior per exchange — returning after some delay, faulting, or
hanging — is an explicit oracle, so the theorems quantify over it. -/

/-- Engine configuration fixed at initialization (spec §6): the
per-exchange timeout (the other configured values — port, baud rate,
maximum payload — do not enter the state machine). -/
structure Config where
  timeout : Nat
deriving DecidableEq, Repr

/-- Transfer State Machine states (spec §4.3, §3 Transfer Session). -/
inductive EngState
  | Idle
  | Receiving (deadline : Nat)
  | Decoded (req : Message) (deadline : Nat)
  | Dispatched (req : Message) (deadline : Nat)
  | Responding (req : Option Message) (resp : Message)
deriving DecidableEq, Repr

/-- Events delivered to the state machine by the UART worker loop. -/
inductive Event
  | firstByte (t : Nat)
  | frameBad
  | decodeFailed
  | frameDecoded (req : Message)
  | dispatchNow
  | adapterDone (resp : Message) (t : Nat)
  | adapterFault (t : Nat)
  | deadlinePassed (t : Nat)
  | emitted (t : Nat)
deriving DecidableEq, Repr

/-- One transition of the Transfer State Machine, returning the next state
and the responses emitted (with their emission instants).  Transport-level
frame corruption returns silently to `Idle` (spec §7a); a decode failure on
a well-framed message is answered with `Err Malformed` (§7b); an adapter
result arriving after the deadline, a caught adapter fault, and a deadline
expiry are all answered with an error response (§4.3); events that do not
apply in the current state are ignored. -/
def step (cfg : Config) : EngState → Event → EngState × List (Message × Nat)
  | .Idle, .firstByte t => (.Receiving (t + cfg.timeout), [])
  | .Receiving _, .frameBad => (.Idle, [])
  | .Receiving _, .decodeFailed => (.Responding none (.Err .Malformed), [])
  | .Receiving d, .frameDecoded req => (.Decoded req d, [])
  | .Decoded req d, .dispatchNow => (.Dispatched req d, [])
  | .Dispatched req d, .adapterDone resp t =>
    if t ≤ d then (.Responding (some req) resp, [])
    else (.Responding (some req) (.Err .Timeout), [])
  | .Dispatched req _, .adapterFault _ => (.Responding (some req) (.Err .IoError), [])
  | .Dispatched req _, .deadlinePassed _ => (.Responding (some req) (.Err .Timeout), [])
  | .Responding _ resp, .emitted t => (.Idle, [(resp, t)])
  | s, _ => (s, [])

/-- Run the machine over a list of events, collecting emissions in order. -/
def runEvents (cfg : Config) : EngState → List Event → EngState × List (Message × Nat)
  | s, [] => (s, [])
  | s, e :: es =>
    ((runEvents cfg (step cfg s e).1 es).1,
      (step cfg s e).2 ++ (runEvents cfg (step cfg s e).1 es).2)

/-- All states visited while running a list of events (inclusive). -/
def statesOf (cfg : Config) : EngState → List Event → List EngState
  | s, [] => [s]
  | s, e :: es => s :: statesOf cfg (step cfg s e).1 es

/-- Adjacent transition pairs of a run. -/
def transOf (cfg : Config) : EngState → List Event → List (EngState × EngState)
  | _, [] => []
  | s, e :: es => (s, (step cfg s e).1) :: transOf cfg (step cfg s e).1 es

/-- What the Frame Codec delivered for one exchange: transport-corrupt
input (no message), a well-framed but undecodable message, or a decoded
request. -/
inductive DecodeOutcome
  | bad
  | undecodable
  | request (req : Message)
deriving DecidableEq, Repr

/-- The adapter's behavior for one exchange: it returns after `delay` time
units, faults after `delay` time units, or never returns. -/
inductive AdapterBehavior
  | works (delay : Nat)
  | fault (delay : Nat)
  | hangs
deriving DecidableEq, Repr

/-- Everything external that shapes one exchange: the arrival instant of
the first byte, the decode outcome, and the adapter behavior. -/
structure ExchangeInput where
  t0 : Nat
  dec : DecodeOutcome
  ab : AdapterBehavior
deriving DecidableEq, Repr

/-- The events the UART worker loop (spec §4.5) generates for one exchange:
it observes the first byte (starting the deadline), reports the codec
outcome, dispatches a decoded request to the adapter, delivers the
adapter's result — or the deadline expiry if the adapter faults past the
deadline or never returns — and performs the response write. -/
def eventsOf {σ : Type} (cfg : Config) (a : Adapter σ) (s : σ)
    (ex : ExchangeInput) : List Event :=
  match ex.dec with
  | .bad => [.firstByte ex.t0, .frameBad]
  | .undecodable => [.firstByte ex.t0, .decodeFailed, .emitted ex.t0]
  | .request req =>
    [.firstByte ex.t0, .frameDecoded req, .dispatchNow] ++
      (match ex.ab with
       | .works delay =>
         if delay ≤ cfg.timeout then
           [.adapterDone (dispatch a s req).2 (ex.t0 + delay), .emitted (ex.t0 + delay)]
         else [.deadlinePassed (ex.t0 + cfg.timeout), .emitted (ex.t0 + cfg.timeout)]
       | .fault delay =>
         if delay ≤ cfg.timeout then
           [.adapterFault (ex.t0 + delay), .emitted (ex.t0 + delay)]
         else [.deadlinePassed (ex.t0 + cfg.timeout), .emitted (ex.t0 + cfg.timeout)]
       | .hangs => [.deadlinePassed (ex.t0 + cfg.timeout), .emitted (ex.t0 + cfg.timeout)])

/-- One full exchange driven from `Idle`. -/
def runExchange {σ : Type} (cfg : Config) (a : Adapter σ) (s : σ)
    (ex : ExchangeInput) : EngState × List (Message × Nat) :=
  runEvents cfg .Idle (eventsOf cfg a s ex)

/-- The adapter state after an exchange (it advances only when a decoded
request was dispatched and the adapter returned in time). -/
def stateAfter {σ : Type} (cfg : Config) (a : Adapter σ) (s : σ)
    (ex : ExchangeInput) : σ :=
  match ex.dec, ex.ab with
  | .request req, .works delay => if delay ≤ cfg.timeout then (dispatch a s req).1 else s
  | _, _ => s

/-- The worker loop over successive exchanges (spec §4.5, §5: one exchange
at a time, strictly in arrival order). -/
def worker {σ : Type} (cfg : Config) (a : Adapter σ) : σ → List ExchangeInput →
    List (Message × Nat)
  | _, [] => []
  | s, ex :: exs =>
    (runExchange cfg a s ex).2 ++ worker cfg a (stateAfter cfg a s ex) exs

/-- A message is a response (as opposed to a request). -/
def Message.isResponse : Message → Bool
  | .Ok _ => true
  | .Err _ => true
  | _ => false

/-- A response is well-formed for a request when it is an error, or a
success whose payload kind is the one that request variant calls for
(handle for Open, bytes for Read, a count for Write/Seek, nothing for
Close/Delete, stat-info for Stat, directory entries for List). -/
def respMatches (req resp : Message) : Bool :=
  match resp with
  | .Err _ => true
  | .Ok pl =>
    match req, pl with
    | .Open _ _, .handle _ => true
    | .Read _ _ _, .data _ => true
    | .Write _ _ _, .num _ => true
    | .Seek _ _ _, .num _ => true
    | .Close _, .nothing => true
    | .Stat _, .stat _ _ _ => true
    | .List _, .entries _ => true
    | .Delete _, .nothing => true
    | _, _ => false
  | _ => false

/-- The dispatch policy always yields a response message. -/
theorem dispatch_isResponse {σ : Type} (a : Adapter σ) (s : σ) (req : Message) :
    (dispatch a s req).2.isResponse = true := by
  cases req with
  | Open p m =>
    cases hr : (a.openF s p m).2 <;> simp [dispatch, wrapResp, hr, Message.isResponse]
  | Read h offs len =>
    cases hr : (a.readF s h offs len).2 <;>
      simp [dispatch, wrapResp, hr, Message.isResponse]
  | Write h offs d =>
    cases hr : (a.writeF s h offs d).2 <;>
      simp [dispatch, wrapResp, hr, Message.isResponse]
  | Seek h offs w =>
    cases hr : (a.seekF s h offs w).2 <;>
      simp [dispatch, wrapResp, hr, Message.isResponse]
  | Close h =>
    cases hr : (a.closeF s h).2 <;> simp [dispatch, wrapResp, hr, Message.isResponse]
  | Stat p =>
    cases hr : (a.statF s p).2 <;> simp [dispatch, wrapResp, hr, Message.isResponse]
  | List p =>
    cases hr : (a.listF s p).2 <;> simp [dispatch, wrapResp, hr, Message.isResponse]
  | Delete p =>
    cases hr : (a.deleteF s p).2 <;> simp [dispatch, wrapResp, hr, Message.isResponse]
  | Ok pl => simp [dispatch, Message.isResponse]
  | Err c => simp [dispatch, Message.isResponse]

/-- The dispatch policy always yields a well-formed response to the request
it was given. -/
theorem dispatch_matches {σ : Type} (a : Adapter σ) (s : σ) (req : Message) :
    respMatches req (dispatch a s req).2 = true := by
  cases req with
  | Open p m =>
    cases hr : (a.openF s p m).2 <;> simp [dispatch, wrapResp, hr, respMatches]
  | Read h offs len =>
    cases hr : (a.readF s h offs len).2 <;> simp [dispatch, wrapResp, hr, respMatches]
  | Write h offs d =>
    cases hr : (a.writeF s h offs d).2 <;> simp [dispatch, wrapResp, hr, respMatches]
  | Seek h offs w =>
    cases hr : (a.seekF s h offs w).2 <;> simp [dispatch, wrapResp, hr, respMatches]
  | Close h =>
    cases hr : (a.closeF s h).2 <;> simp [dispatch, wrapResp, hr, respMatches]
  | Stat p =>
    cases hr : (a.statF s p).2 <;> simp [dispatch, wrapResp, hr, respMatches]
  | List p =>
    cases hr : (a.listF s p).2 <;> simp [dispatch, wrapResp, hr, respMatches]
  | Delete p =>
    cases hr : (a.deleteF s p).2 <;> simp [dispatch, wrapResp, hr, respMatches]
  | Ok pl => simp [dispatch, respMatches]
  | Err c => simp [dispatch, respMatches]

/-- Number of requests in flight at the Filesystem Adapter in a state. -/
def dispCount : EngState → Nat
  | .Dispatched _ _ => 1
  | _ => 0

/-- Is the machine in `Dispatched`? -/
def isDisp : EngState → Bool
  | .Dispatched _ _ => true
  | _ => false

/-- Is the machine in `Responding`? -/
def isRespState : EngState → Bool
  | .Responding _ _ => true
  | _ => false

/-- Transitions entering `Dispatched`. -/
def entriesD (ts : List (EngState × EngState)) : Nat :=
  ts.countP (fun pr => !isDisp pr.1 && isDisp pr.2)

/-- Transitions leaving `Dispatched` into `Responding`. -/
def exitsDR (ts : List (EngState × EngState)) : Nat :=
  ts.countP (fun pr => isDisp pr.1 && isRespState pr.2)

/-- C2 (spec §3, §8, §4.3): for every request the engine decodes, the
exchange emits exactly one response — never zero, never more than one — the
emitted message is a response variant, its emission instant is within the
per-exchange deadline `t0 + timeout`, and the machine returns to `Idle`;
this holds for every adapter behavior, including reported errors, caught
faults, and hangs. -/
theorem one_response_per_request {σ : Type} (cfg : Config) (a : Adapter σ) (s : σ)
    (ex : ExchangeInput) (req : Message) (hdec : ex.dec = .request req) :
    (runExchange cfg a s ex).2.length = 1 ∧
    ((runExchange cfg a s ex).2.all
      (fun pr => pr.1.isResponse && (pr.2 ≤ ex.t0 + cfg.timeout))) = true ∧
    (runExchange cfg a s ex).1 = .Idle := by
  cases hab : ex.ab with
  | works delay =>
    by_cases hd : delay ≤ cfg.timeout
    · have hle : ex.t0 + delay ≤ ex.t0 + cfg.timeout := by omega
      simp [runExchange, eventsOf, hdec, hab, hd, hle, runEvents, step,
        dispatch_isResponse]
    · simp [runExchange, eventsOf, hdec, hab, hd, runEvents, step, Message.isResponse]
  | fault delay =>
    by_cases hd : delay ≤ cfg.timeout
    · have hle : ex.t0 + delay ≤ ex.t0 + cfg.timeout := by omega
      simp [runExchange, eventsOf, hdec, hab, hd, hle, runEvents, step,
        Message.isResponse]
    · simp [runExchange, eventsOf, hdec, hab, hd, runEvents, step, Message.isResponse]
  | hangs =>
    simp [runExchange, eventsOf, hdec, hab, runEvents, step, Message.isResponse]

/-- Witness: a concrete exchange (Close on the reference adapter, returning
after 3 of 100 time units) emits exactly one in-deadline response and ends
in `Idle`. -/
theorem one_response_per_request_witness :
    (runExchange ⟨100⟩ fsAdapter (⟨[], [], 1⟩ : FsState)
      ⟨5, .request (.Close 9), .works 3⟩).2.length = 1 ∧
    ((runExchange ⟨100⟩ fsAdapter (⟨[], [], 1⟩ : FsState)
      ⟨5, .request (.Close 9), .works 3⟩).2.all
      (fun pr => pr.1.isResponse && (pr.2 ≤ 105))) = true ∧
    (runExchange ⟨100⟩ fsAdapter (⟨[], [], 1⟩ : FsState)
      ⟨5, .request (.Close 9), .works 3⟩).1 = .Idle := by
  have h := one_response_per_request ⟨100⟩ fsAdapter (⟨[], [], 1⟩ : FsState)
    ⟨5, .request (.Close 9), .works 3⟩ (.Close 9) rfl
  simpa using h

/-- C6 (spec §4.3 invariants): along every exchange the worker drives, (i)
every visited state has at most one request in flight at the adapter — the
single Transfer Session owns the exchange, so there are never overlapping
filesystem calls; (ii) transitions into `Dispatched` are matched exactly by
transitions from `Dispatched` into `Responding`; (iii) every emitted frame
is a response variant; and (iv) when the exchange decoded request `req`,
every emitted frame is a well-formed response to `req` — the most recently
decoded request. -/
theorem engine_single_flight {σ : Type} (cfg : Config) (a : Adapter σ) (s : σ)
    (ex : ExchangeInput) :
    ((statesOf cfg .Idle (eventsOf cfg a s ex)).all
      (fun st => dispCount st ≤ 1)) = true ∧
    entriesD (transOf cfg .Idle (eventsOf cfg a s ex)) =
      exitsDR (transOf cfg .Idle (eventsOf cfg a s ex)) ∧
    ((runExchange cfg a s ex).2.all (fun pr => pr.1.isResponse)) = true ∧
    (∀ req, ex.dec = .request req →
      ((runExchange cfg a s ex).2.all (fun pr => respMatches req pr.1)) = true) := by
  cases hdec : ex.dec with
  | bad =>
    simp [runExchange, eventsOf, hdec, runEvents, step, statesOf, transOf,
      entriesD, exitsDR, dispCount, isDisp, isRespState]
  | undecodable =>
    simp [runExchange, eventsOf, hdec, runEvents, step, statesOf, transOf,
      entriesD, exitsDR, dispCount, isDisp, isRespState, Message.isResponse,
      respMatches]
  | request req =>
    cases hab : ex.ab with
    | works delay =>
      by_cases hd : delay ≤ cfg.timeout
      · by_cases hle : ex.t0 + delay ≤ ex.t0 + cfg.timeout
        · simp [runExchange, eventsOf, hdec, hab, hd, hle, runEvents, step,
            statesOf, transOf, entriesD, exitsDR, dispCount, isDisp, isRespState,
            dispatch_isResponse, dispatch_matches]
        · exact absurd (by omega : ex.t0 + delay ≤ ex.t0 + cfg.timeout) hle
      · simp [runExchange, eventsOf, hdec, hab, hd, runEvents, step, statesOf,
          transOf, entriesD, exitsDR, dispCount, isDisp, isRespState,
          Message.isResponse, respMatches]
    | fault delay =>
      by_cases hd : delay ≤ cfg.timeout
      · simp [runExchange, eventsOf, hdec, hab, hd, runEvents, step, statesOf,
          transOf, entriesD, exitsDR, dispCount, isDisp, isRespState,
          Message.isResponse, respMatches]
      · simp [runExchange, eventsOf, hdec, hab, hd, runEvents, step, statesOf,
          transOf, entriesD, exitsDR, dispCount, isDisp, isRespState,
          Message.isResponse, respMatches]
    | hangs =>
      simp [runExchange, eventsOf, hdec, hab, runEvents, step, statesOf, transOf,
        entriesD, exitsDR, dispCount, isDisp, isRespState, Message.isResponse,
        respMatches]

/-- Witness: a concrete hanging exchange satisfies all four invariants,
with the well-formedness conjunct discharged at its decoded request. -/
theorem engine_single_flight_witness :
    ((statesOf ⟨7⟩ .Idle (eventsOf ⟨7⟩ fsAdapter (⟨[], [], 1⟩ : FsState)
      ⟨0, .request (.Close 1), .hangs⟩)).all (fun st => dispCount st ≤ 1)) = true ∧
    entriesD (transOf ⟨7⟩ .Idle (eventsOf ⟨7⟩ fsAdapter (⟨[], [], 1⟩ : FsState)
        ⟨0, .request (.Close 1), .hangs⟩)) =
      exitsDR (transOf ⟨7⟩ .Idle (eventsOf ⟨7⟩ fsAdapter (⟨[], [], 1⟩ : FsState)
        ⟨0, .request (.Close 1), .hangs⟩)) ∧
    ((runExchange ⟨7⟩ fsAdapter (⟨[], [], 1⟩ : FsState)
      ⟨0, .request (.Close 1), .hangs⟩).2.all (fun pr => pr.1.isResponse)) = true ∧
    ((runExchange ⟨7⟩ fsAdapter (⟨[], [], 1⟩ : FsState)
      ⟨0, .request (.Close 1), .hangs⟩).2.all
      (fun pr => respMatches (.Close 1) pr.1)) = true := by
  have h := engine_single_flight ⟨7⟩ fsAdapter (⟨[], [], 1⟩ : FsState)
    ⟨0, .request (.Close 1), .hangs⟩
  exact ⟨h.1, h.2.1, h.2.2.1, h.2.2.2 (.Close 1) rfl⟩

/-- C7 (spec §4.3 timeout policy): the deadline of an exchange starts at the
instant `t0` the first byte of the frame is observed; when the adapter has
not returned by `t0 + timeout` — it hangs, or its delay exceeds the
timeout (return or fault alike) — the machine abandons the exchange,
returns to `Idle`, and emits exactly the `Err Timeout` response at the
deadline, so the host never waits indefinitely.  (The write itself is the
external UART's; the engine always attempts it.) -/
theorem timeout_abandons_exchange {σ : Type} (cfg : Config) (a : Adapter σ) (s : σ)
    (ex : ExchangeInput) (req : Message) (hdec : ex.dec = .request req)
    (hlate : ex.ab = .hangs ∨ (∃ d, ex.ab = .works d ∧ cfg.timeout < d) ∨
      (∃ d, ex.ab = .fault d ∧ cfg.timeout < d)) :
    runExchange cfg a s ex = (.Idle, [(.Err .Timeout, ex.t0 + cfg.timeout)]) := by
  rcases hlate with hab | ⟨d, hab, hd⟩ | ⟨d, hab, hd⟩
  · simp [runExchange, eventsOf, hdec, hab, runEvents, step]
  · have hnd : ¬ d ≤ cfg.timeout := by omega
    simp [runExchange, eventsOf, hdec, hab, hnd, runEvents, step]
  · have hnd : ¬ d ≤ cfg.timeout := by omega
    simp [runExchange, eventsOf, hdec, hab, hnd, runEvents, step]

/-- Witness: a hanging adapter on a concrete Read exchange with timeout 50
starting at instant 3 yields exactly `Err Timeout` at instant 53 and ends
in `Idle`. -/
theorem timeout_abandons_exchange_witness :
    runExchange ⟨50⟩ fsAdapter (⟨[], [], 1⟩ : FsState)
      ⟨3, .request (.Read 1 0 4), .hangs⟩ = (.Idle, [(.Err .Timeout, 53)]) := by
  have h := timeout_abandons_exchange ⟨50⟩ fsAdapter (⟨[], [], 1⟩ : FsState)
    ⟨3, .request (.Read 1 0 4), .hangs⟩ (.Read 1 0 4) rfl (Or.inl rfl)
  simpa using h

/-! ## Startup contract (header + spec §6) -/

/-- `ESP_OK` of `esp_err_t` (numerically zero; every error code is
nonzero). -/
def ESP_OK : Int := 0

/-- Modelled from the spec: the body of `fs_proxy_create_task` is not in the
repository — `include/uart_file_transfer.h` only declares it.  Per the
header comment and §6's startup contract, the function initializes the UART
interface and creates the worker task, returning `ESP_OK` on success "or an
error code on failure"; it reports a specific initialization failure rather
than silently continuing half-initialized.  The two collaborator outcomes
(UART driver initialization, worker-task creation) are passed as explicit
`Except` arguments carrying their `esp_err_t` failure codes. -/
def fs_proxy_create_task (uartInit : Except Int Unit)
    (taskCreate : Except Int Unit) : Int :=
  match uartInit with
  | .error e => e
  | .ok _ =>
    match taskCreate with
    | .error e => e
    | .ok _ => ESP_OK

/-- C9 (header, spec §6): `fs_proxy_create_task` returns `ESP_OK` exactly
when both UART initialization and worker creation succeed; a UART
initialization failure is returned as that step's specific error code (the
worker is then never created), and a worker-creation failure after a
successful UART init is returned as its specific code — assuming, per the
`esp_err_t` convention, that failure codes are nonzero, the function never
reports success while half-initialized. -/
theorem fs_proxy_create_task_contract (u t : Except Int Unit)
    (hu : ∀ e, u = .error e → e ≠ 0) (ht : ∀ e, t = .error e → e ≠ 0) :
    (fs_proxy_create_task u t = ESP_OK ↔ u = .ok () ∧ t = .ok ()) ∧
    (∀ e, u = .error e → fs_proxy_create_task u t = e) ∧
    (∀ e, u = .ok () → t = .error e → fs_proxy_create_task u t = e) := by
  cases u with
  | error e =>
    have he := hu e rfl
    simp [fs_proxy_create_task, ESP_OK, he]
  | ok _ =>
    cases t with
    | error e =>
      have he := ht e rfl
      simp [fs_proxy_create_task, ESP_OK, he]
    | ok _ => simp [fs_proxy_create_task, ESP_OK]

/-- Witness: a failed UART init (code 261) is reported as 261, and the
all-success case reports `ESP_OK`. -/
theorem fs_proxy_create_task_contract_witness :
    fs_proxy_create_task (Except.error 261) (Except.ok ()) = 261 ∧
    (fs_proxy_create_task (Except.ok ()) (Except.ok ()) = ESP_OK ↔
      (Except.ok () : Except Int Unit) = .ok () ∧
        (Except.ok () : Except Int Unit) = .ok ()) := by
  constructor
  · exact (fs_proxy_create_task_contract (.error 261) (.ok ())
      (by intro e h; simp at h; omega) (by intro e h; simp at h)).2.1 261 rfl
  · exact (fs_proxy_create_task_contract (.ok ()) (.ok ())
      (by intro e h; simp at h) (by intro e h; simp at h)).1

/-! ## The public C interface (src/include/uart_file_transfer.h) -/

/-- One C function declaration: its name, the list of parameter types
(empty for `(void)` — no arguments), and the return type. -/
structure CFunDecl where
  name : String
  params : List String
  ret : String
deriving DecidableEq, Repr

/-- The public C interface declared by `src/include/uart_file_transfer.h`,
the repository's entire visible surface: the header declares exactly one
function, `esp_err_t fs_proxy_create_task(void)`. -/
def headerInterface : List CFunDecl :=
  [{ name := "fs_proxy_create_task", params := [], ret := "esp_err_t" }]

/-- C10 (header): the public C interface consists of exactly one function;
it is `fs_proxy_create_task`, it takes no parameters — so no configuration
value (UART port, baud rate, maximum payload, timeout) can be supplied by
any caller, and every call is made with no arguments — it returns
`esp_err_t`, and no other public operation (stop-the-worker, direct file
operation) exists. -/
theorem header_single_entry_point :
    headerInterface.length = 1 ∧
    (headerInterface.all (fun d => d.name = "fs_proxy_create_task" &&
      d.params.isEmpty && d.ret = "esp_err_t")) = true := by
  constructor
  · rfl
  · rfl

end UartFT
